import Mathlib

/-!
Shallow embedding of the chess position engine of the `chesswav` repository
(`src/engine/board.rs`, `src/hint.rs`, `src/chess.rs`).

Conventions of the embedding:
* `u8` coordinates become `Nat`; `i8` distances become `Int` (all arithmetic
  in the source stays far from the overflow boundary on in-range squares).
* The board `[[Option<(Piece, Color)>; 8]; 8]` becomes a total function
  `Nat → Nat → Option (Piece × Color)` indexed `squares rank file`, exactly
  mirroring `squares[rank][file]`; out-of-range indices (a panic in Rust)
  simply read whatever the function returns there and are never relied on.
* Rust strings become `List Char` (all notation involved is ASCII, so byte
  slicing and char iteration agree).
* The fallible promotion branch of `apply_move` (an `expect` panic in Rust)
  is modelled with `Option`.
* The `while` loop of `path_clear` is modelled with fuel 8: every call site
  (bishop/rook guards on an 8×8 board) reaches the destination in at most
  7 steps, so the fuel is never exhausted on in-range arguments.
-/

inductive Color where
  | White
  | Black
deriving DecidableEq

def Color.opponent : Color → Color
  | Color.White => Color.Black
  | Color.Black => Color.White

inductive Piece where
  | Pawn
  | Knight
  | Rook
  | Bishop
  | Queen
  | King
deriving DecidableEq

structure Square where
  file : Nat
  rank : Nat
deriving DecidableEq

inductive Threat where
  | None
  | Check
  | Checkmate
deriving DecidableEq

inductive Capture where
  | None
  | Taken
deriving DecidableEq

/-- `NotationMove` as consumed by the engine (the parser in `chess.rs`
calls it `Move`): a move parsed from algebraic notation, destination only. -/
structure NotationMove where
  piece : Piece
  dest : Square
  threat : Threat
  capture : Capture
  promotion : Option Piece
deriving DecidableEq

structure ResolvedMove where
  origin : Square
  dest : Square
  promotion : Option Piece
  castling_rook : Option (Square × Square)
deriving DecidableEq

/-- The 8×8 grid `squares[rank][file]` of `Option<(Piece, Color)>`. -/
structure Board where
  squares : Nat → Nat → Option (Piece × Color)

def Board.get (b : Board) (file rank : Nat) : Option (Piece × Color) :=
  b.squares rank file

/-- Raw write of one cell, the `self.squares[rank][file] = v` primitive. -/
def Board.write (b : Board) (file rank : Nat) (v : Option (Piece × Color)) : Board :=
  ⟨fun rk fl => if rk = rank ∧ fl = file then v else b.squares rk fl⟩

def Board.set (b : Board) (file rank : Nat) (pc : Piece × Color) : Board :=
  b.write file rank (some pc)

def Board.clear_square (b : Board) (file rank : Nat) : Board :=
  b.write file rank none

def Board.emptyBoard : Board :=
  ⟨fun _ _ => none⟩

def back_rank : List Piece :=
  [Piece.Rook, Piece.Knight, Piece.Bishop, Piece.Queen,
   Piece.King, Piece.Bishop, Piece.Knight, Piece.Rook]

/-- `Board::new`: the standard opening position. -/
def Board.new : Board :=
  ⟨fun rank file =>
    match back_rank.get? file with
    | some piece =>
      if rank = 0 then some (piece, Color.White)
      else if rank = 1 then some (Piece.Pawn, Color.White)
      else if rank = 6 then some (Piece.Pawn, Color.Black)
      else if rank = 7 then some (piece, Color.Black)
      else none
    | none => none⟩

/-- The 64 squares in the scan order of every loop in `board.rs`:
rank 0→7 outer, file 0→7 inner; each element is `(file, rank)`. -/
def scanSquares : List (Nat × Nat) :=
  (List.range 8).flatMap fun rank => (List.range 8).map fun file => (file, rank)

def pawnDirection : Color → Int
  | Color.White => 1
  | Color.Black => -1

def pawnStartRank : Color → Nat
  | Color.White => 1
  | Color.Black => 6

/-- `path_clear`'s while loop, with fuel (see the header note). Positions are
`i8` in Rust; the `as u8` index cast is modelled by `Int.toNat`, which agrees
on the in-range positions every real call visits. -/
def Board.pathClearGo (b : Board) (dest : Square) (file_step rank_step : Int) :
    Nat → Int → Int → Bool
  | 0, _, _ => true
  | fuel + 1, current_file, current_rank =>
    if current_file = (dest.file : Int) ∧ current_rank = (dest.rank : Int) then true
    else if (b.get current_file.toNat current_rank.toNat).isSome then false
    else b.pathClearGo dest file_step rank_step fuel
      (current_file + file_step) (current_rank + rank_step)

def Board.path_clear (b : Board) (file rank : Nat) (dest : Square)
    (file_step rank_step : Int) : Bool :=
  b.pathClearGo dest file_step rank_step 8
    ((file : Int) + file_step) ((rank : Int) + rank_step)

def Board.knight_can_reach (_b : Board) (file rank : Nat) (dest : Square) : Bool :=
  let file_distance := ((dest.file : Int) - (file : Int)).natAbs
  let rank_distance := ((dest.rank : Int) - (rank : Int)).natAbs
  decide ((file_distance = 2 ∧ rank_distance = 1) ∨ (file_distance = 1 ∧ rank_distance = 2))

def Board.bishop_can_reach (b : Board) (file rank : Nat) (dest : Square) : Bool :=
  let file_distance := (dest.file : Int) - (file : Int)
  let rank_distance := (dest.rank : Int) - (rank : Int)
  if file_distance.natAbs ≠ rank_distance.natAbs ∨ file_distance = 0 then false
  else b.path_clear file rank dest file_distance.sign rank_distance.sign

def Board.rook_can_reach (b : Board) (file rank : Nat) (dest : Square) : Bool :=
  let file_distance := (dest.file : Int) - (file : Int)
  let rank_distance := (dest.rank : Int) - (rank : Int)
  if (file_distance ≠ 0 ∧ rank_distance ≠ 0) ∨ (file_distance = 0 ∧ rank_distance = 0) then
    false
  else b.path_clear file rank dest file_distance.sign rank_distance.sign

def Board.king_can_reach (_b : Board) (file rank : Nat) (dest : Square) : Bool :=
  let file_distance := ((dest.file : Int) - (file : Int)).natAbs
  let rank_distance := ((dest.rank : Int) - (rank : Int)).natAbs
  decide (file_distance ≤ 1 ∧ rank_distance ≤ 1 ∧ 0 < file_distance + rank_distance)

/-- Pawn attack semantics: diagonal-forward only, occupancy irrelevant. -/
def Board.pawn_attacks_square (color : Color) (file rank : Nat) (target : Square) : Bool :=
  let direction := pawnDirection color
  let file_distance := (target.file : Int) - (file : Int)
  let rank_distance := (target.rank : Int) - (rank : Int)
  decide (file_distance.natAbs = 1 ∧ rank_distance = direction)

/-- Pawn reachability as used by move resolution (`pawn_can_reach`). -/
def Board.pawn_can_reach (b : Board) (color : Color) (file rank : Nat) (dest : Square) : Bool :=
  let direction := pawnDirection color
  let start_rank := pawnStartRank color
  let file_distance := (dest.file : Int) - (file : Int)
  let rank_distance := (dest.rank : Int) - (rank : Int)
  if file_distance = 0 ∧ rank_distance = direction ∧ b.get dest.file dest.rank = none then
    true
  else if file_distance = 0 ∧ rank_distance = 2 * direction ∧ rank = start_rank
      ∧ b.get file ((rank : Int) + direction).toNat = none
      ∧ b.get dest.file dest.rank = none then
    true
  else if file_distance.natAbs = 1 ∧ rank_distance = direction then
    true
  else false

/-- Pawn reachability as used by legal-move generation (`pawn_can_move_to`):
a diagonal step additionally requires an enemy piece at the destination. -/
def Board.pawn_can_move_to (b : Board) (color : Color) (file rank : Nat) (dest : Square) : Bool :=
  let direction := pawnDirection color
  let start_rank := pawnStartRank color
  let file_distance := (dest.file : Int) - (file : Int)
  let rank_distance := (dest.rank : Int) - (rank : Int)
  if file_distance = 0 ∧ rank_distance = direction ∧ b.get dest.file dest.rank = none then
    true
  else if file_distance = 0 ∧ rank_distance = 2 * direction ∧ rank = start_rank
      ∧ b.get file ((rank : Int) + direction).toNat = none
      ∧ b.get dest.file dest.rank = none then
    true
  else if file_distance.natAbs = 1 ∧ rank_distance = direction then
    match b.get dest.file dest.rank with
    | some (_, dest_color) => decide (dest_color ≠ color)
    | none => false
  else false

def Board.attacks_square (b : Board) (piece : Piece) (color : Color)
    (file rank : Nat) (target : Square) : Bool :=
  match piece with
  | Piece.Pawn => Board.pawn_attacks_square color file rank target
  | Piece.Knight => b.knight_can_reach file rank target
  | Piece.Bishop => b.bishop_can_reach file rank target
  | Piece.Rook => b.rook_can_reach file rank target
  | Piece.Queen => b.bishop_can_reach file rank target || b.rook_can_reach file rank target
  | Piece.King => b.king_can_reach file rank target

def Board.is_square_attacked_by (b : Board) (target : Square) (attacker_color : Color) : Bool :=
  scanSquares.any fun fr =>
    match b.get fr.1 fr.2 with
    | some (piece, color) =>
      decide (color = attacker_color) && b.attacks_square piece color fr.1 fr.2 target
    | none => false

def Board.find_king (b : Board) (color : Color) : Option Square :=
  scanSquares.findSome? fun fr =>
    match b.get fr.1 fr.2 with
    | some (piece, piece_color) =>
      if piece = Piece.King ∧ piece_color = color then some ⟨fr.1, fr.2⟩ else none
    | none => none

def Board.is_in_check (b : Board) (color : Color) : Bool :=
  match b.find_king color with
  | some king_square => b.is_square_attacked_by king_square color.opponent
  | none => false

def Board.is_valid_destination (b : Board) (piece : Piece) (color : Color)
    (file rank : Nat) (dest : Square) : Bool :=
  -- Can't capture own piece
  (match b.get dest.file dest.rank with
   | some (_, dest_color) => decide (dest_color ≠ color)
   | none => true)
  &&
  (match piece with
   | Piece.Pawn => b.pawn_can_move_to color file rank dest
   | Piece.Knight => b.knight_can_reach file rank dest
   | Piece.Bishop => b.bishop_can_reach file rank dest
   | Piece.Rook => b.rook_can_reach file rank dest
   | Piece.Queen => b.bishop_can_reach file rank dest || b.rook_can_reach file rank dest
   | Piece.King => b.king_can_reach file rank dest)

def Board.move_leaves_king_safe (b : Board) (color : Color) (file rank : Nat)
    (dest : Square) : Bool :=
  let piece_on_origin := b.get file rank
  let trial := (b.clear_square file rank).write dest.file dest.rank piece_on_origin
  !(trial.is_in_check color)

def Board.piece_has_legal_move (b : Board) (piece : Piece) (color : Color)
    (file rank : Nat) : Bool :=
  scanSquares.any fun d =>
    b.is_valid_destination piece color file rank ⟨d.1, d.2⟩
      && b.move_leaves_king_safe color file rank ⟨d.1, d.2⟩

def Board.has_any_legal_move (b : Board) (color : Color) : Bool :=
  scanSquares.any fun fr =>
    match b.get fr.1 fr.2 with
    | some (piece, piece_color) =>
      decide (piece_color = color) && b.piece_has_legal_move piece color fr.1 fr.2
    | none => false

def Board.is_checkmate (b : Board) (color : Color) : Bool :=
  b.is_in_check color && !(b.has_any_legal_move color)

/-! ### The notation parser (`chess.rs`) and hint module (`hint.rs`) -/

def Piece.from_char (c : Char) : Option Piece :=
  if c = 'N' then some Piece.Knight
  else if c = 'R' then some Piece.Rook
  else if c = 'B' then some Piece.Bishop
  else if c = 'Q' then some Piece.Queen
  else if c = 'K' then some Piece.King
  else none

/-- `char::to_digit(10)`. -/
def charToDigit? (c : Char) : Option Nat :=
  if '0' ≤ c ∧ c ≤ '9' then some (c.toNat - '0'.toNat) else none

def Square.parse_file (c : Char) : Option Nat :=
  if 'a' ≤ c ∧ c ≤ 'h' then some (c.toNat - 'a'.toNat) else none

def Square.parse_rank (c : Char) : Option Nat :=
  match charToDigit? c with
  | some rank_num => if 1 ≤ rank_num ∧ rank_num ≤ 8 then some (rank_num - 1) else none
  | none => none

def Square.parse (file_char rank_char : Char) : Option Square :=
  match Square.parse_file file_char, Square.parse_rank rank_char with
  | some file, some rank => some ⟨file, rank⟩
  | _, _ => none

def NotationMove.strip_annotations (input : List Char) : List Char :=
  (input.takeWhile fun c => c != '=').filter fun c =>
    !(c == '+' || c == '#' || c == '!' || c == '?' || c == 'x' || c == '-')

def NotationMove.parse_promotion (input : List Char) : Option Piece :=
  match input.dropWhile (fun c => c != '=') with
  | [] => none
  | _ :: after_eq =>
    match after_eq.head? with
    | some c => Piece.from_char c
    | none => none

def NotationMove.parse_castling (clean : List Char) (rank : Nat)
    (threat : Threat) (capture : Capture) : Option NotationMove :=
  if clean = "OO".toList then
    some { piece := Piece.King, dest := ⟨6, rank⟩, threat := threat,
           capture := capture, promotion := none }
  else if clean = "OOO".toList then
    some { piece := Piece.King, dest := ⟨2, rank⟩, threat := threat,
           capture := capture, promotion := none }
  else none

def NotationMove.extract_destination (s : List Char) : Option (Char × Char) :=
  if s.length ≥ 2 then
    match s.drop (s.length - 2) with
    | [file_char, rank_char] => some (file_char, rank_char)
    | _ => none
  else none

/-- `Move::parse` in `chess.rs` (the engine imports the type as `NotationMove`). -/
def NotationMove.parse (input : List Char) (move_index : Nat) : Option NotationMove :=
  let threat :=
    if input.contains '#' then Threat.Checkmate
    else if input.contains '+' then Threat.Check
    else Threat.None
  let capture := if input.contains 'x' then Capture.Taken else Capture.None
  let promotion := NotationMove.parse_promotion input
  let clean := NotationMove.strip_annotations input
  let rank := if move_index % 2 = 0 then 0 else 7
  match NotationMove.parse_castling clean rank threat capture with
  | some m => some m
  | none =>
    match clean.head? with
    | none => none
    | some first_char =>
      let piece := (Piece.from_char first_char).getD Piece.Pawn
      match NotationMove.extract_destination clean with
      | none => none
      | some (file_char, rank_char) =>
        match Square.parse file_char rank_char with
        | none => none
        | some dest =>
          some { piece := piece, dest := dest, threat := threat,
                 capture := capture, promotion := promotion }

def is_castling (text : List Char) : Bool :=
  let clean := text.filter fun c => !(c == '+' || c == '#')
  clean == "O-O".toList || clean == "O-O-O".toList

def resolve_castling (chess_move : NotationMove) (color : Color) : Option ResolvedMove :=
  let rank : Nat :=
    match color with
    | Color.White => 0
    | Color.Black => 7
  let kingside := chess_move.dest.file == 6
  let rook_pair :=
    if kingside then (Square.mk 7 rank, Square.mk 5 rank)
    else (Square.mk 0 rank, Square.mk 3 rank)
  some { origin := ⟨4, rank⟩, dest := chess_move.dest, promotion := none,
         castling_rook := some rook_pair }

def strip_annotations (text : List Char) : List Char :=
  (text.takeWhile fun c => c != '=').filter fun c =>
    !(c == '+' || c == '#' || c == '!' || c == '?' || c == 'x' || c == '-')

def extract_pawn_hints (clean : List Char) : Option Nat × Option Nat :=
  if clean.length > 2 then
    match clean.head? with
    | some source_file =>
      if 'a' ≤ source_file ∧ source_file ≤ 'h' then
        (some (source_file.toNat - 'a'.toNat), none)
      else (none, none)
    | none => (none, none)
  else (none, none)

def extract_hints (clean : List Char) (piece : Piece) : Option Nat × Option Nat :=
  if piece = Piece.Pawn then extract_pawn_hints clean
  else if clean.length ≤ 3 then (none, none)
  else
    let disambiguation := (clean.drop 1).take (clean.length - 3)
    disambiguation.foldl
      (fun hints hint_char =>
        if 'a' ≤ hint_char ∧ hint_char ≤ 'h' then
          (some (hint_char.toNat - 'a'.toNat), hints.2)
        else if '1' ≤ hint_char ∧ hint_char ≤ '8' then
          (hints.1, some (hint_char.toNat - '1'.toNat))
        else hints)
      ((none, none) : Option Nat × Option Nat)

/-! ### Move resolution and application (`board.rs`) -/

/-- Does a disambiguation hint accept this coordinate?
(`if let Some(h) = hint && v != h { continue }` in `find_origin`). -/
def hint_ok (hint : Option Nat) (v : Nat) : Bool :=
  match hint with
  | some h => v == h
  | none => true

def Board.can_reach (b : Board) (piece : Piece) (color : Color)
    (file rank : Nat) (dest : Square) : Bool :=
  match piece with
  | Piece.Pawn => b.pawn_can_reach color file rank dest
  | Piece.Knight => b.knight_can_reach file rank dest
  | Piece.Bishop => b.bishop_can_reach file rank dest
  | Piece.Rook => b.rook_can_reach file rank dest
  | Piece.Queen => b.bishop_can_reach file rank dest || b.rook_can_reach file rank dest
  | Piece.King => b.king_can_reach file rank dest

def Board.find_origin (b : Board) (piece : Piece) (dest : Square) (color : Color)
    (file_hint rank_hint : Option Nat) : Option Square :=
  scanSquares.findSome? fun fr =>
    match b.get fr.1 fr.2 with
    | some (found_piece, found_color) =>
      if found_piece = piece ∧ found_color = color
          ∧ hint_ok file_hint fr.1 = true ∧ hint_ok rank_hint fr.2 = true
          ∧ b.can_reach piece color fr.1 fr.2 dest = true
      then some ⟨fr.1, fr.2⟩ else none
    | none => none

def Board.resolve_move (b : Board) (chess_move : NotationMove) (text : List Char)
    (color : Color) : Option ResolvedMove :=
  if is_castling text then resolve_castling chess_move color
  else
    let clean := strip_annotations text
    let hints := extract_hints clean chess_move.piece
    match b.find_origin chess_move.piece chess_move.dest color hints.1 hints.2 with
    | none => none
    | some origin =>
      some { origin := origin, dest := chess_move.dest,
             promotion := chess_move.promotion, castling_rook := none }

/-- `apply_move`; the promotion branch's `expect` panic (no piece at the
origin) is modelled as `none`. -/
def Board.apply_move (b : Board) (parsed : ResolvedMove) : Option Board :=
  let piece_on_origin := b.get parsed.origin.file parsed.origin.rank
  let cleared := b.clear_square parsed.origin.file parsed.origin.rank
  let after_dest : Option Board :=
    match parsed.promotion with
    | some promoted_piece =>
      match piece_on_origin with
      | some (_, color) =>
        some (cleared.set parsed.dest.file parsed.dest.rank (promoted_piece, color))
      | none => none
    | none =>
      some (cleared.write parsed.dest.file parsed.dest.rank piece_on_origin)
  after_dest.map fun b2 =>
    match parsed.castling_rook with
    | some (rook_from, rook_to) =>
      let rook := b2.get rook_from.file rook_from.rank
      (b2.clear_square rook_from.file rook_from.rank).write rook_to.file rook_to.rank rook
    | none => b2

/-- The replay helper of the repository's tests: parse each token, alternate
colors starting with White, resolve and apply each move in turn. -/
def playMovesFrom (b : Board) (index : Nat) : List (List Char) → Option Board
  | [] => some b
  | text :: rest =>
    match NotationMove.parse text index with
    | none => none
    | some chess_move =>
      let color := if index % 2 = 0 then Color.White else Color.Black
      match b.resolve_move chess_move text color with
      | none => none
      | some resolved =>
        match b.apply_move resolved with
        | none => none
        | some b2 => playMovesFrom b2 (index + 1) rest

def play_moves (notations : List (List Char)) : Option Board :=
  playMovesFrom Board.new 0 notations

/-! ### Supporting definitions for the statements -/

/-- The Scholar's mate token sequence of the spec scenario. -/
def scholarsTokens : List (List Char) :=
  ["e4", "e5", "Bc4", "Nc6", "Qh5", "Nf6", "Qxf7#"].map String.toList

/-- The mover's back rank as used by `resolve_castling`. -/
def homeRank : Color → Nat
  | Color.White => 0
  | Color.Black => 7

/-- The squares `apply_move` writes: origin, destination, and the castling
rook's from/to squares when present. -/
def ResolvedMove.touched (m : ResolvedMove) : List (Nat × Nat) :=
  [(m.origin.file, m.origin.rank), (m.dest.file, m.dest.rank)] ++
    (match m.castling_rook with
     | some (rook_from, rook_to) =>
       [(rook_from.file, rook_from.rank), (rook_to.file, rook_to.rank)]
     | none => [])

/-- The full origin-scan condition of `find_origin` at one square: the square
holds the requested piece and color, matches both hints, and can reach `dest`. -/
def Board.origin_matches (b : Board) (piece : Piece) (dest : Square) (color : Color)
    (file_hint rank_hint : Option Nat) (file rank : Nat) : Bool :=
  match b.get file rank with
  | some (found_piece, found_color) =>
    decide (found_piece = piece ∧ found_color = color
      ∧ hint_ok file_hint file = true ∧ hint_ok rank_hint rank = true
      ∧ b.can_reach piece color file rank dest = true)
  | none => false

/-- King in check from a queen along the file, with room to escape. -/
def checkedNotMatedBoard : Color → Board
  | Color.White =>
    (Board.emptyBoard.set 4 0 (Piece.King, Color.White)).set 4 7 (Piece.Queen, Color.Black)
  | Color.Black =>
    (Board.emptyBoard.set 4 7 (Piece.King, Color.Black)).set 4 0 (Piece.Queen, Color.White)

/-- The back-rank-mate fixture of the repository's tests. -/
def backRankMateBoard : Board :=
  ((((Board.emptyBoard.set 6 0 (Piece.King, Color.White)).set 5 1 (Piece.Pawn, Color.White)).set
      6 1 (Piece.Pawn, Color.White)).set 7 1 (Piece.Pawn, Color.White)).set
    0 0 (Piece.Rook, Color.Black)

/-- White rook on a1 blocked by a white rook on a2 (the blocker itself
attacks a8). -/
def doubleRookBoard : Board :=
  (Board.emptyBoard.set 0 0 (Piece.Rook, Color.White)).set 0 1 (Piece.Rook, Color.White)

/-- White rook on a1, own pawn on a2 (an own-color capture target). -/
def ownCaptureBoard : Board :=
  (Board.emptyBoard.set 0 0 (Piece.Rook, Color.White)).set 0 1 (Piece.Pawn, Color.White)

/-! ### Claims -/

/-- C1: for every board and color `c`, `is_checkmate c` is exactly
`is_in_check c && !has_any_legal_move c`; in particular checkmate implies
check, and for each color there is a board that is in check but not
checkmated. -/
theorem checkmate_iff_check_and_no_legal_move (c : Color) :
    (∀ b : Board,
      b.is_checkmate c = (b.is_in_check c && !(b.has_any_legal_move c)) ∧
      (b.is_checkmate c = true → b.is_in_check c = true)) ∧
    (∃ b : Board, b.is_in_check c = true ∧ b.is_checkmate c = false) := by
  refine ⟨fun b => ⟨rfl, fun h => ?_⟩, ?_⟩
  · exact (Bool.and_eq_true _ _ |>.mp h).1
  · refine ⟨checkedNotMatedBoard c, ?_⟩
    cases c <;> exact ⟨by decide, by decide⟩

/-- Witness for C1: the back-rank-mate fixture is checkmated, so by the
theorem it is in check; the escape-board existence is instantiated at White. -/
theorem checkmate_iff_check_and_no_legal_move_witness :
    backRankMateBoard.is_in_check Color.White = true ∧
    (∃ b : Board, b.is_in_check Color.White = true ∧ b.is_checkmate Color.White = false) :=
  ⟨((checkmate_iff_check_and_no_legal_move Color.White).1 backRankMateBoard).2 (by decide),
   (checkmate_iff_check_and_no_legal_move Color.White).2⟩

/-- C2: replaying `e4 e5 Bc4 Nc6 Qh5 Nf6 Qxf7#` from the initial board with
alternating colors — parsing, resolving and applying each token — succeeds at
every step (`play_moves` returns `some`; any failing `resolve_move` would
yield `none`) and the final board has `is_checkmate Black = true`. -/
theorem scholars_mate_is_checkmate :
    (play_moves scholarsTokens).map (fun b => b.is_checkmate Color.Black) = some true := by
  decide

/-- Every square produced by the scan list is on the board. -/
theorem scanSquares_bounds : ∀ fr ∈ scanSquares, fr.1 < 8 ∧ fr.2 < 8 := by decide

/-- C9: on a board holding no king of color `c`, `is_in_check c` is `false`
(and so is `is_checkmate c`): the missing king is absorbed into the negative
answer rather than being an error. -/
theorem no_king_no_check (b : Board) (c : Color)
    (h : ∀ f r : Nat, f < 8 → r < 8 → b.get f r ≠ some (Piece.King, c)) :
    b.is_in_check c = false ∧ b.is_checkmate c = false := by
  have hk : b.find_king c = none := by
    unfold Board.find_king
    rw [List.findSome?_eq_none_iff]
    intro fr hfr
    obtain ⟨hf, hr⟩ := scanSquares_bounds fr hfr
    cases hg : b.get fr.1 fr.2 with
    | none => simp
    | some pc =>
      obtain ⟨piece, piece_color⟩ := pc
      simp only []
      rw [if_neg]
      rintro ⟨rfl, rfl⟩
      exact h fr.1 fr.2 hf hr hg
  have hic : b.is_in_check c = false := by
    unfold Board.is_in_check
    rw [hk]
  refine ⟨hic, ?_⟩
  unfold Board.is_checkmate
  rw [hic]
  rfl

/-- Witness for C9: the empty board has no White king, so it is neither in
check nor checkmated. -/
theorem no_king_no_check_witness :
    Board.emptyBoard.is_in_check Color.White = false ∧
    Board.emptyBoard.is_checkmate Color.White = false :=
  no_king_no_check Board.emptyBoard Color.White
    (fun _ _ _ _ hg => by simp [Board.get, Board.emptyBoard] at hg)

/-- C10: `is_valid_destination` is `false` whenever the destination holds a
piece of the mover's own color (so the legal-move enumeration behind
`has_any_legal_move`/`is_checkmate` never counts an own-piece capture), while
the move-resolution predicate `can_reach` imposes no such restriction. -/
theorem own_color_destination_invalid :
    (∀ (b : Board) (piece : Piece) (color : Color) (file rank : Nat) (dest : Square)
      (p : Piece), b.get dest.file dest.rank = some (p, color) →
        b.is_valid_destination piece color file rank dest = false) ∧
    (∃ (b : Board) (piece : Piece) (color : Color) (file rank : Nat) (dest : Square)
      (p : Piece), b.get dest.file dest.rank = some (p, color) ∧
        b.can_reach piece color file rank dest = true) := by
  constructor
  · intro b piece color file rank dest p hg
    unfold Board.is_valid_destination
    rw [hg]
    simp
  · exact ⟨ownCaptureBoard, Piece.Rook, Color.White, 0, 0, ⟨0, 1⟩, Piece.Pawn,
      by decide, by decide⟩

/-- Witness for C10: a white rook on a1 cannot take the white pawn on a2 in
legal-move generation, though `can_reach` allows it during resolution. -/
theorem own_color_destination_invalid_witness :
    ownCaptureBoard.is_valid_destination Piece.Rook Color.White 0 0 ⟨0, 1⟩ = false ∧
    ownCaptureBoard.can_reach Piece.Rook Color.White 0 0 ⟨0, 1⟩ = true :=
  ⟨own_color_destination_invalid.1 ownCaptureBoard Piece.Rook Color.White 0 0 ⟨0, 1⟩
      Piece.Pawn (by decide),
   by decide⟩

/-- C7: a white pawn at `(f, r)` (with the targets on the board) attacks both
forward diagonals but never the square straight ahead; the attack predicate
consults no occupancy at all. -/
theorem white_pawn_attack_asymmetry (f r : Nat) (h1 : 1 ≤ f) (h2 : f + 1 ≤ 7)
    (_h3 : r + 1 ≤ 7) :
    Board.pawn_attacks_square Color.White f r ⟨f - 1, r + 1⟩ = true ∧
    Board.pawn_attacks_square Color.White f r ⟨f + 1, r + 1⟩ = true ∧
    Board.pawn_attacks_square Color.White f r ⟨f, r + 1⟩ = false := by
  refine ⟨?_, ?_, ?_⟩ <;>
    simp only [Board.pawn_attacks_square, pawnDirection, decide_eq_true_eq,
      decide_eq_false_iff_not, Int.natAbs_eq_iff, not_and, not_or] <;>
    omega

/-- Witness for C7 at `f = 1`, `r = 0`. -/
theorem white_pawn_attack_asymmetry_witness :
    Board.pawn_attacks_square Color.White 1 0 ⟨0, 1⟩ = true ∧
    Board.pawn_attacks_square Color.White 1 0 ⟨2, 1⟩ = true ∧
    Board.pawn_attacks_square Color.White 1 0 ⟨1, 1⟩ = false :=
  white_pawn_attack_asymmetry 1 0 (by decide) (by decide) (by decide)

/-- C3: a one-square diagonal-forward pawn step is always reachable for the
move-resolution predicate `pawn_can_reach`, whatever occupies the
destination, while the legal-move-generation predicate `pawn_can_move_to`
accepts it exactly when the destination holds an enemy piece. -/
theorem pawn_resolution_vs_generation_diagonal (b : Board) (c : Color) (file rank : Nat)
    (dest : Square)
    (hf : ((dest.file : Int) - (file : Int)).natAbs = 1)
    (hr : (dest.rank : Int) - (rank : Int) = pawnDirection c) :
    b.pawn_can_reach c file rank dest = true ∧
    (b.pawn_can_move_to c file rank dest = true ↔
      ∃ (p : Piece) (oc : Color), b.get dest.file dest.rank = some (p, oc) ∧ oc ≠ c) := by
  have hf0 : (dest.file : Int) - (file : Int) ≠ 0 := by
    intro h0
    rw [h0] at hf
    simp at hf
  constructor
  · simp only [Board.pawn_can_reach]
    rw [if_neg (by rintro ⟨h0, -⟩; exact hf0 h0), if_neg (by rintro ⟨h0, -⟩; exact hf0 h0),
      if_pos ⟨hf, hr⟩]
  · simp only [Board.pawn_can_move_to]
    rw [if_neg (by rintro ⟨h0, -⟩; exact hf0 h0), if_neg (by rintro ⟨h0, -⟩; exact hf0 h0),
      if_pos ⟨hf, hr⟩]
    cases hg : b.get dest.file dest.rank with
    | none => simp [hg]
    | some pc =>
      obtain ⟨p0, c0⟩ := pc
      simp only [hg, decide_eq_true_eq, Option.some.injEq, Prod.mk.injEq]
      constructor
      · exact fun hne => ⟨p0, c0, ⟨rfl, rfl⟩, hne⟩
      · rintro ⟨p, oc, ⟨-, rfl⟩, hne⟩
        exact hne

/-- Witness for C3: from the initial board, the white pawn on e2 diagonally
reaches the empty d3 during resolution but may not move there legally. -/
theorem pawn_resolution_vs_generation_diagonal_witness :
    Board.new.pawn_can_reach Color.White 4 1 ⟨3, 2⟩ = true ∧
    Board.new.pawn_can_move_to Color.White 4 1 ⟨3, 2⟩ = false :=
  ⟨(pawn_resolution_vs_generation_diagonal Board.new Color.White 4 1 ⟨3, 2⟩
      (by decide) (by decide)).1,
   by decide⟩

/-- C4: on castling text (anything whose `+`/`#`-stripped form is `O-O` or
`O-O-O`), `resolve_move` answers `some` without inspecting the board: the
king comes from `(4, homeRank color)`, and the rook relocation is
`(7,rank)→(5,rank)` when the parsed destination file is 6, otherwise
`(0,rank)→(3,rank)`, with no promotion. -/
theorem resolve_move_castling_shape (b : Board) (chess_move : NotationMove)
    (text : List Char) (color : Color) (h : is_castling text = true) :
    b.resolve_move chess_move text color =
      some { origin := ⟨4, homeRank color⟩, dest := chess_move.dest, promotion := none,
             castling_rook := some (if chess_move.dest.file = 6
               then (Square.mk 7 (homeRank color), Square.mk 5 (homeRank color))
               else (Square.mk 0 (homeRank color), Square.mk 3 (homeRank color))) } := by
  unfold Board.resolve_move
  rw [if_pos h]
  unfold resolve_castling
  cases color <;>
    simp only [homeRank, Option.some.injEq] <;>
    by_cases h6 : chess_move.dest.file = 6 <;>
    simp [h6]

/-- Witness for C4: white kingside castling `O-O` on the initial board. -/
theorem resolve_move_castling_shape_witness :
    Board.new.resolve_move
        { piece := Piece.King, dest := ⟨6, 0⟩, threat := Threat.None,
          capture := Capture.None, promotion := none } "O-O".toList Color.White =
      some { origin := ⟨4, 0⟩, dest := ⟨6, 0⟩, promotion := none,
             castling_rook := some (Square.mk 7 0, Square.mk 5 0) } := by
  have h := resolve_move_castling_shape Board.new
    { piece := Piece.King, dest := ⟨6, 0⟩, threat := Threat.None,
      capture := Capture.None, promotion := none } "O-O".toList Color.White (by decide)
  simpa using h

/-- One-cell write/read law for the raw board write. -/
theorem Board.get_write (b : Board) (file rank : Nat) (v : Option (Piece × Color))
    (f r : Nat) :
    (b.write file rank v).get f r = if r = rank ∧ f = file then v else b.get f r := rfl

/-- Reading any other cell sees through a write. -/
theorem Board.get_write_ne {b : Board} {file rank : Nat} {v : Option (Piece × Color)}
    {f r : Nat} (h : ¬(r = rank ∧ f = file)) :
    (b.write file rank v).get f r = b.get f r := by
  rw [Board.get_write, if_neg h]

/-- C8: `apply_move` touches only the origin, the destination, and (when
castling) the rook's from/to squares; every other square reads exactly as
before, and a successful call has no other effect on the board. -/
theorem apply_move_frame (b : Board) (m : ResolvedMove) (b2 : Board) (f r : Nat)
    (happ : b.apply_move m = some b2) (hmem : (f, r) ∉ m.touched) :
    b2.get f r = b.get f r := by
  have nO : ¬(r = m.origin.rank ∧ f = m.origin.file) := by
    intro hc
    exact hmem (by simp [ResolvedMove.touched, hc.1, hc.2])
  have nD : ¬(r = m.dest.rank ∧ f = m.dest.file) := by
    intro hc
    exact hmem (by simp [ResolvedMove.touched, hc.1, hc.2])
  simp only [Board.apply_move] at happ
  rcases hcr : m.castling_rook with _ | ⟨rf, rt⟩ <;> rw [hcr] at happ
  case none =>
    rcases hp : m.promotion with _ | pp <;> rw [hp] at happ
    case none =>
      simp only [Option.map_some', Option.some.injEq] at happ
      subst happ
      simp only [Board.set, Board.clear_square]
      rw [Board.get_write_ne nD, Board.get_write_ne nO]
    case some =>
      rcases ho : b.get m.origin.file m.origin.rank with _ | ⟨p1, c1⟩ <;> rw [ho] at happ
      · simp at happ
      · simp only [Option.map_some', Option.some.injEq] at happ
        subst happ
        simp only [Board.set, Board.clear_square]
        rw [Board.get_write_ne nD, Board.get_write_ne nO]
  case some =>
    have nRF : ¬(r = rf.rank ∧ f = rf.file) := by
      intro hc
      exact hmem (by simp [ResolvedMove.touched, hcr, hc.1, hc.2])
    have nRT : ¬(r = rt.rank ∧ f = rt.file) := by
      intro hc
      exact hmem (by simp [ResolvedMove.touched, hcr, hc.1, hc.2])
    rcases hp : m.promotion with _ | pp <;> rw [hp] at happ
    case none =>
      simp only [Option.map_some', Option.some.injEq] at happ
      subst happ
      simp only [Board.set, Board.clear_square]
      rw [Board.get_write_ne nRT, Board.get_write_ne nRF, Board.get_write_ne nD,
        Board.get_write_ne nO]
    case some =>
      rcases ho : b.get m.origin.file m.origin.rank with _ | ⟨p1, c1⟩ <;> rw [ho] at happ
      · simp at happ
      · simp only [Option.map_some', Option.some.injEq] at happ
        subst happ
        simp only [Board.set, Board.clear_square]
        rw [Board.get_write_ne nRT, Board.get_write_ne nRF, Board.get_write_ne nD,
          Board.get_write_ne nO]

/-- Witness for C8: pushing the e-pawn two squares leaves a1 untouched. -/
theorem apply_move_frame_witness :
    ((Board.new.clear_square 4 1).write 4 3 (Board.new.get 4 1)).get 0 0 =
      Board.new.get 0 0 :=
  apply_move_frame Board.new
    { origin := ⟨4, 1⟩, dest := ⟨4, 3⟩, promotion := none, castling_rook := none }
    _ 0 0 rfl (by decide)

/-- If some square strictly before the destination along the walk is
occupied, the `path_clear` loop reports `false` (provided the walk has a
nonzero step and enough fuel to reach the blocker). -/
theorem Board.pathClearGo_blocked (b : Board) (d : Square) (sf sr : Int) :
    ∀ (m fuel : Nat) (cf cr : Int), m ≤ fuel →
    (d.file : Int) = cf + m * sf → (d.rank : Int) = cr + m * sr →
    (sf ≠ 0 ∨ sr ≠ 0) →
    (∃ j : Nat, j < m ∧ (b.get (cf + j * sf).toNat (cr + j * sr).toNat).isSome = true) →
    b.pathClearGo d sf sr fuel cf cr = false := by
  intro m
  induction m with
  | zero =>
    rintro fuel cf cr - - - - ⟨j, hj, -⟩
    omega
  | succ m ih =>
    rintro fuel cf cr hfuel hdf hdr hstep ⟨j, hj, hocc⟩
    cases fuel with
    | zero => omega
    | succ fuel =>
      rw [Board.pathClearGo]
      have hne : ¬(cf = (d.file : Int) ∧ cr = (d.rank : Int)) := by
        rintro ⟨h1, h2⟩
        rcases hstep with hsf | hsr
        · have h0 : ((m + 1 : Nat) : Int) * sf = 0 := by rw [← h1] at hdf; linarith
          rcases mul_eq_zero.mp h0 with hz | hz
          · have : ((m + 1 : Nat) : Int) ≠ 0 := by push_cast; omega
            exact this hz
          · exact hsf hz
        · have h0 : ((m + 1 : Nat) : Int) * sr = 0 := by rw [← h2] at hdr; linarith
          rcases mul_eq_zero.mp h0 with hz | hz
          · have : ((m + 1 : Nat) : Int) ≠ 0 := by push_cast; omega
            exact this hz
          · exact hsr hz
      rw [if_neg hne]
      rcases j with _ | j
      · have hocc0 : (b.get cf.toNat cr.toNat).isSome = true := by
          simpa using hocc
        rw [if_pos hocc0]
      · by_cases hcur : (b.get cf.toNat cr.toNat).isSome = true
        · rw [if_pos hcur]
        · rw [if_neg hcur]
          refine ih fuel (cf + sf) (cr + sr) (by omega) ?_ ?_ hstep ⟨j, by omega, ?_⟩
          · push_cast at hdf ⊢
            linear_combination hdf
          · push_cast at hdr ⊢
            linear_combination hdr
          · have e1 : cf + sf + (j : Int) * sf = cf + ((j + 1 : Nat) : Int) * sf := by
              push_cast; ring
            have e2 : cr + sr + (j : Int) * sr = cr + ((j + 1 : Nat) : Int) * sr := by
              push_cast; ring
            rw [e1, e2]
            exact hocc

/-- `path_clear` itself reports `false` under the same blocking condition,
phrased from the origin square. -/
theorem Board.path_clear_blocked (b : Board) (file rank : Nat) (d : Square) (sf sr : Int)
    (n j : Nat) (hn : n ≤ 8) (hstep : sf ≠ 0 ∨ sr ≠ 0)
    (hdf : (d.file : Int) = file + n * sf) (hdr : (d.rank : Int) = rank + n * sr)
    (hj1 : 1 ≤ j) (hjn : j < n)
    (hocc : (b.get ((file : Int) + j * sf).toNat ((rank : Int) + j * sr).toNat).isSome
      = true) :
    b.path_clear file rank d sf sr = false := by
  unfold Board.path_clear
  refine Board.pathClearGo_blocked b d sf sr (n - 1) 8 ((file : Int) + sf)
    ((rank : Int) + sr) (by omega) ?_ ?_ hstep ⟨j - 1, by omega, ?_⟩
  · have hcast : ((n - 1 : Nat) : Int) = (n : Int) - 1 := by omega
    rw [hcast]
    linear_combination hdf
  · have hcast : ((n - 1 : Nat) : Int) = (n : Int) - 1 := by omega
    rw [hcast]
    linear_combination hdr
  · have hcast : ((j - 1 : Nat) : Int) = (j : Int) - 1 := by omega
    have e1 : (file : Int) + sf + ((j - 1 : Nat) : Int) * sf = (file : Int) + j * sf := by
      rw [hcast]; ring
    have e2 : (rank : Int) + sr + ((j - 1 : Nat) : Int) * sr = (rank : Int) + j * sr := by
      rw [hcast]; ring
    rw [e1, e2]
    exact hocc

/-- The sign of `n * s` is `s` itself when `1 ≤ n` and `|s| ≤ 1`. -/
theorem sign_of_unit_multiple (x s : Int) (n : Nat) (hx : x = n * s) (hn : 1 ≤ n)
    (habs : s.natAbs ≤ 1) : x.sign = s := by
  have h3 : s = -1 ∨ s = 0 ∨ s = 1 := by omega
  have hn' : (1 : Int) ≤ (n : Int) := by exact_mod_cast hn
  rcases h3 with rfl | rfl | rfl
  · rw [hx, Int.sign_eq_neg_one_iff_neg]
    nlinarith
  · rw [hx, mul_zero, Int.sign_zero]
  · rw [hx, Int.sign_eq_one_iff_pos]
    nlinarith

/-- C6 counterexample: a rook on a1 with a piece on an intermediate a-file
square (here a white rook on a2) — yet `is_square_attacked_by` on a8 by the
rook's color is `true`, because the blocking piece itself attacks a8. The
whole-board reading of the claim is therefore false. -/
theorem slider_blocked_counterexample :
    doubleRookBoard.get 0 0 = some (Piece.Rook, Color.White) ∧
    (doubleRookBoard.get 0 1).isSome = true ∧
    doubleRookBoard.is_square_attacked_by ⟨0, 7⟩ Color.White = true := by decide

/-- C6 (amended): with any piece on any intermediate a-file square, the rook
on a1 itself cannot reach a8 (`rook_can_reach` is false — though the blocker
may itself attack a8, so the whole-board query can still be true); and in
general bishop, rook and queen reachability all fail whenever some square
strictly between origin and destination along the line of movement is
occupied. -/
theorem slider_reach_blocked :
    (∀ (b : Board) (p : Piece) (c : Color) (k : Nat),
        1 ≤ k → k ≤ 6 → b.get 0 k = some (p, c) →
        b.rook_can_reach 0 0 ⟨0, 7⟩ = false) ∧
    (∀ (b : Board) (color : Color) (file rank : Nat) (d : Square) (sf sr : Int)
        (n j : Nat),
        file < 8 → rank < 8 → d.file < 8 → d.rank < 8 →
        sf.natAbs ≤ 1 → sr.natAbs ≤ 1 →
        (d.file : Int) = file + n * sf → (d.rank : Int) = rank + n * sr →
        1 ≤ j → j < n →
        (b.get ((file : Int) + j * sf).toNat ((rank : Int) + j * sr).toNat).isSome
          = true →
        b.rook_can_reach file rank d = false ∧ b.bishop_can_reach file rank d = false ∧
          b.can_reach Piece.Queen color file rank d = false) := by
  have general : ∀ (b : Board) (color : Color) (file rank : Nat) (d : Square)
      (sf sr : Int) (n j : Nat),
      file < 8 → rank < 8 → d.file < 8 → d.rank < 8 →
      sf.natAbs ≤ 1 → sr.natAbs ≤ 1 →
      (d.file : Int) = file + n * sf → (d.rank : Int) = rank + n * sr →
      1 ≤ j → j < n →
      (b.get ((file : Int) + j * sf).toNat ((rank : Int) + j * sr).toNat).isSome = true →
      b.rook_can_reach file rank d = false ∧ b.bishop_can_reach file rank d = false ∧
        b.can_reach Piece.Queen color file rank d = false := by
    intro b color file rank d sf sr n j hfile hrank hdfile hdrank hsf hsr hdf hdr hj1
      hjn hocc
    have hfd : (d.file : Int) - file = n * sf := by linarith
    have hrd : (d.rank : Int) - rank = n * sr := by linarith
    have hn1 : 1 ≤ n := by omega
    have hn8file : sf ≠ 0 → n ≤ 8 := by
      intro h
      have h3 : sf = -1 ∨ sf = 1 := by omega
      rcases h3 with rfl | rfl <;> omega
    have hn8rank : sr ≠ 0 → n ≤ 8 := by
      intro h
      have h3 : sr = -1 ∨ sr = 1 := by omega
      rcases h3 with rfl | rfl <;> omega
    have hsgf : ((d.file : Int) - file).sign = sf :=
      sign_of_unit_multiple _ _ n hfd hn1 hsf
    have hsgr : ((d.rank : Int) - rank).sign = sr :=
      sign_of_unit_multiple _ _ n hrd hn1 hsr
    have hrook : b.rook_can_reach file rank d = false := by
      simp only [Board.rook_can_reach]
      split_ifs with hg
      · rfl
      · have hstep : sf ≠ 0 ∨ sr ≠ 0 := by
          by_contra hno
          push_neg at hno
          exact hg (Or.inr ⟨by rw [hfd, hno.1, mul_zero], by rw [hrd, hno.2, mul_zero]⟩)
        have hn8 : n ≤ 8 := by
          rcases hstep with h | h
          · exact hn8file h
          · exact hn8rank h
        rw [hsgf, hsgr]
        exact Board.path_clear_blocked b file rank d sf sr n j hn8 hstep hdf hdr hj1
          hjn hocc
    have hbishop : b.bishop_can_reach file rank d = false := by
      simp only [Board.bishop_can_reach]
      split_ifs with hg
      · rfl
      · push_neg at hg
        have hsf0 : sf ≠ 0 := by
          intro h0
          exact hg.2 (by rw [hfd, h0, mul_zero])
        rw [hsgf, hsgr]
        exact Board.path_clear_blocked b file rank d sf sr n j (hn8file hsf0)
          (Or.inl hsf0) hdf hdr hj1 hjn hocc
    refine ⟨hrook, hbishop, ?_⟩
    simp only [Board.can_reach, hrook, hbishop, Bool.or_self]
  refine ⟨?_, general⟩
  intro b p c k hk1 hk6 hg
  refine (general b Color.White 0 0 ⟨0, 7⟩ 0 1 7 k (by decide) (by decide) (by decide)
    (by decide) (by decide) (by decide) (by norm_num) (by norm_num) hk1 (by omega) ?_).1
  have e1 : ((0 : Int) + k * 0).toNat = 0 := by simp
  have e2 : ((0 : Int) + k * 1).toNat = k := by simp
  simp only [Nat.cast_zero]
  rw [e1, e2, hg]
  rfl

/-- Witness for C6 (amended): the a-file family at a concrete board — a white
rook on a1 with its own pawn on a2 cannot reach a8. -/
theorem slider_reach_blocked_witness :
    ownCaptureBoard.rook_can_reach 0 0 ⟨0, 7⟩ = false :=
  slider_reach_blocked.1 ownCaptureBoard Piece.Pawn Color.White 1 (by decide) (by decide)
    (by decide)

/-- First-match characterization of a guarded `findSome?`: a hit satisfies
the predicate and everything at an earlier index fails it. -/
theorem findSome?_guard_first {p : Nat × Nat → Bool} {s : Square} :
    ∀ {l : List (Nat × Nat)},
    (l.findSome? fun a => if p a then some (Square.mk a.1 a.2) else none) = some s →
    p (s.file, s.rank) = true ∧
    ∃ i : Nat, l[i]? = some (s.file, s.rank) ∧
      ∀ k : Nat, k < i → ∀ x, l[k]? = some x → p x = false
  | [], h => by simp [List.findSome?] at h
  | a :: t, h => by
    obtain ⟨a1, a2⟩ := a
    rw [List.findSome?_cons] at h
    by_cases hpa : p (a1, a2) = true
    · rw [if_pos hpa] at h
      simp only [Option.some.injEq] at h
      subst h
      refine ⟨hpa, 0, by simp, ?_⟩
      intro k hk
      omega
    · have hpa' : p (a1, a2) = false := by
        simpa using hpa
      rw [if_neg hpa] at h
      simp only [] at h
      obtain ⟨hp, i, hi, hmin⟩ := findSome?_guard_first h
      refine ⟨hp, i + 1, by simpa using hi, ?_⟩
      intro k hk x hx
      rcases k with _ | k
      · simp only [List.getElem?_cons_zero, Option.some.injEq] at hx
        rw [← hx]
        exact hpa'
      · simp only [List.getElem?_cons_succ] at hx
        exact hmin k (by omega) x hx

/-- A guarded `findSome?` over a list on which the predicate always fails
returns `none`. -/
theorem findSome?_guard_none {p : Nat × Nat → Bool} {l : List (Nat × Nat)}
    (h : ∀ x ∈ l, p x = false) :
    (l.findSome? fun a => if p a then some (Square.mk a.1 a.2) else none) = none := by
  rw [List.findSome?_eq_none_iff]
  intro x hx
  rw [if_neg]
  simp [h x hx]

/-- `find_origin` is the guarded scan of `origin_matches` over `scanSquares`. -/
theorem find_origin_eq_guard (b : Board) (piece : Piece) (dest : Square) (color : Color)
    (fh rh : Option Nat) :
    b.find_origin piece dest color fh rh =
      scanSquares.findSome? fun fr =>
        if b.origin_matches piece dest color fh rh fr.1 fr.2 = true then
          some (Square.mk fr.1 fr.2)
        else none := by
  unfold Board.find_origin
  congr 1
  funext fr
  unfold Board.origin_matches
  cases hg : b.get fr.1 fr.2 with
  | none => simp
  | some pc =>
    obtain ⟨fp, fc⟩ := pc
    simp only [decide_eq_true_eq]

/-- The square at scan index `r * 8 + f` is `(f, r)`. -/
theorem scanSquares_table : ∀ f, f < 8 → ∀ r, r < 8 →
    scanSquares[r * 8 + f]? = some (f, r) := by decide

theorem scanSquares_nodup : scanSquares.Nodup := by decide

/-- C5: whenever `find_origin` answers `some s`, the square `s` holds the
requested piece and color, matches both hints, passes the reachability
predicate, and is the first such square in rank-major, file-minor scan
order; and when no square qualifies, the answer is `none`. -/
theorem find_origin_spec (b : Board) (piece : Piece) (dest : Square) (color : Color)
    (fh rh : Option Nat) :
    (∀ s, b.find_origin piece dest color fh rh = some s →
      (b.get s.file s.rank = some (piece, color) ∧
        hint_ok fh s.file = true ∧ hint_ok rh s.rank = true ∧
        b.can_reach piece color s.file s.rank dest = true) ∧
      (∀ f r, f < 8 → r < 8 → r * 8 + f < s.rank * 8 + s.file →
        b.origin_matches piece dest color fh rh f r = false)) ∧
    ((∀ f r, f < 8 → r < 8 → b.origin_matches piece dest color fh rh f r = false) →
      b.find_origin piece dest color fh rh = none) := by
  constructor
  · intro s hs
    rw [find_origin_eq_guard] at hs
    obtain ⟨hp, i, hi, hmin⟩ := findSome?_guard_first hs
    have hp' : b.origin_matches piece dest color fh rh s.file s.rank = true := hp
    have hmem : (s.file, s.rank) ∈ scanSquares := by
      obtain ⟨hlt, heq⟩ := List.getElem?_eq_some.mp hi
      rw [← heq]
      exact List.getElem_mem hlt
    obtain ⟨hfb, hrb⟩ := scanSquares_bounds _ hmem
    have hidx : i = s.rank * 8 + s.file := by
      have hlt : i < scanSquares.length := (List.getElem?_eq_some.mp hi).1
      refine List.getElem?_inj hlt scanSquares_nodup ?_
      rw [hi, scanSquares_table s.file hfb s.rank hrb]
    constructor
    · unfold Board.origin_matches at hp'
      cases hg : b.get s.file s.rank with
      | none => rw [hg] at hp'; simp at hp'
      | some pc =>
        obtain ⟨fp, fc⟩ := pc
        rw [hg] at hp'
        simp only [decide_eq_true_eq] at hp'
        obtain ⟨h1, h2, h3, h4, h5⟩ := hp'
        subst h1
        subst h2
        exact ⟨rfl, h3, h4, h5⟩
    · intro f r hf hr hlt
      have := hmin (r * 8 + f) (by omega) (f, r) (scanSquares_table f hf r hr)
      exact this
  · intro hall
    rw [find_origin_eq_guard]
    apply findSome?_guard_none
    intro x hx
    obtain ⟨h1, h2⟩ := scanSquares_bounds x hx
    exact hall x.1 x.2 h1 h2

/-- Witness for C5: resolving the pawn push to e4 on the initial board finds
e2, which holds the white pawn, reaches e4, and beats every earlier square in
scan order. -/
theorem find_origin_spec_witness :
    Board.new.get 4 1 = some (Piece.Pawn, Color.White) ∧
    Board.new.can_reach Piece.Pawn Color.White 4 1 ⟨4, 3⟩ = true ∧
    Board.new.origin_matches Piece.Pawn ⟨4, 3⟩ Color.White none none 0 0 = false := by
  have h := (find_origin_spec Board.new Piece.Pawn ⟨4, 3⟩ Color.White none none).1
    ⟨4, 1⟩ (by decide)
  exact ⟨h.1.1, h.1.2.2.2, h.2 0 0 (by decide) (by decide) (by decide)⟩
